import Mathlib

/-!
Verification of the Instagram-analyzer application (Next.js route handler
plus the client page component) against its natural-language specification.

The embedding below is a shallow model of the two source files:
  * the API route (`analyzeInstagramAccount`, `POST`), and
  * the client page (`updateHandle`, `removeHandleInput`, `analyzeAccounts`,
    `getSortedResults`, `exportToCSV`, `exportToExcel`).

Modelling conventions:
  * JavaScript numbers are modelled by `ℕ`/`ℚ`.  All integer quantities in
    the code stay far below 2^53, so the exact model is faithful.  The one
    floating-point expression, `followers * (0.3 + (hash % 10) / 20)`, was
    checked to agree with exact rational arithmetic (same `Math.floor`
    result) on every reachable pair of `followers` and `hash % 10`:
    both are functions of `hash % 500000` and all 500000 residues agree,
    so the model uses exact `ℚ` arithmetic.
  * `String.prototype.replace('@','')` removes only the first occurrence.
  * `String.prototype.trim` removes the ECMAScript whitespace set from both
    ends; the set is modelled by `jsWhitespace`.
  * `toUpperCase`/`toLowerCase` are modelled on the ASCII range (the handles
    reaching them are validated to `[A-Za-z0-9._]`, and the sort comparison
    is exercised by the spec only on ASCII data).
  * JavaScript string `<` compares UTF-16 code units lexicographically;
    this is modelled by code-point comparison, which coincides on the BMP.
-/

/-! ## Character and string primitives (ECMAScript behaviour) -/

/-- ASCII upper-casing of a character, as `toUpperCase` acts on `[a-z]`. -/
def jsCharUpper (c : Char) : Char :=
  if 'a' ≤ c ∧ c ≤ 'z' then Char.ofNat (c.toNat - 32) else c

/-- ASCII lower-casing of a character, as `toLowerCase` acts on `[A-Z]`. -/
def jsCharLower (c : Char) : Char :=
  if 'A' ≤ c ∧ c ≤ 'Z' then Char.ofNat (c.toNat + 32) else c

/-- The ECMAScript `trim` whitespace set (WhiteSpace ∪ LineTerminator). -/
def jsWhitespace (c : Char) : Bool :=
  [9, 10, 11, 12, 13, 32, 160, 5760, 8192, 8193, 8194, 8195, 8196, 8197,
    8198, 8199, 8200, 8201, 8202, 8232, 8233, 8239, 8287, 12288,
    65279].contains c.toNat

/-- `s.trim()`: drop ECMAScript whitespace from both ends. -/
def jsTrim (s : String) : String :=
  (((s.data.dropWhile jsWhitespace).reverse.dropWhile jsWhitespace).reverse).asString

/-- `s.replace('@', '')` on the underlying characters: a string pattern
replaces only the FIRST occurrence. -/
def removeFirstAt : List Char → List Char
  | [] => []
  | c :: cs => if c = '@' then cs else c :: removeFirstAt cs

/-- `s.replace('@', '')`. -/
def jsRemoveFirstAt (s : String) : String :=
  (removeFirstAt s.data).asString

/-- The handle-cleaning step `handle.replace('@', '').trim()`, shared
verbatim by the client (`updateHandle`) and the endpoint (`POST`). -/
def cleanHandleStr (s : String) : String :=
  jsTrim (jsRemoveFirstAt s)

/-- One character of the class `[a-zA-Z0-9._]`. -/
def isHandleChar (c : Char) : Bool :=
  ('a' ≤ c && c ≤ 'z') || ('A' ≤ c && c ≤ 'Z') ||
    ('0' ≤ c && c ≤ '9') || c == '.' || c == '_'

/-- `/^[a-zA-Z0-9._]+$/.test s`: non-empty and every character in class. -/
def regexHandleTest (s : String) : Bool :=
  s != "" && s.data.all isHandleChar

/-! ## The metrics-resolution endpoint (route handler source) -/

/-- The record returned by the endpoint (`interface InstagramData`). -/
structure InstagramData where
  handle : String
  name : String
  followers : ℕ
  averageViews : ℕ
  category : String
  engagementRate : ℚ
  location : String
  deriving DecidableEq

/-- The fixed category label list of the route handler (15 labels). -/
def categories : List String :=
  ["Influencer", "Brand", "Artist", "Content Creator", "Business",
    "Personal", "Celebrity", "Photographer", "Fashion", "Food & Beverage",
    "Travel", "Fitness", "Technology", "Education", "Entertainment"]

/-- The fixed location label list of the route handler (16 labels). -/
def locations : List String :=
  ["Los Angeles, CA", "New York, NY", "Miami, FL", "London, UK",
    "Paris, France", "Tokyo, Japan", "Dubai, UAE", "Sydney, Australia",
    "Toronto, Canada", "Berlin, Germany", "Singapore", "São Paulo, Brazil",
    "Mumbai, India", "Seoul, South Korea", "Mexico City, Mexico",
    "Not specified"]

/-- `handle.split('').reduce((acc, char) => acc + char.charCodeAt(0), 0)`.
Validated handles are ASCII, so the UTF-16 code unit equals `Char.toNat`. -/
def hashOf (s : String) : ℕ :=
  s.data.foldl (fun acc c => acc + c.toNat) 0

/-- `handle.charAt(0).toUpperCase() + handle.slice(1)` (capitalise first). -/
def capFirst : List Char → List Char
  | [] => []
  | c :: cs => jsCharUpper c :: cs

/-- `handle.split(/[._]/)`: split at every `.` or `_`, keeping empty
segments exactly as ECMAScript does (so `"".split` gives `[""]`). -/
def splitSep : List Char → List (List Char)
  | [] => [[]]
  | c :: cs =>
    if c = '.' ∨ c = '_' then [] :: splitSep cs
    else
      match splitSep cs with
      | [] => [[c]]
      | t :: ts => (c :: t) :: ts

/-- Interleave the segments with single spaces (`Array.prototype.join(' ')`). -/
def joinSpace : List (List Char) → List Char
  | [] => []
  | [t] => t
  | t :: ts => t ++ ' ' :: joinSpace ts

/-- The fourth name variant:
`handle.charAt(0).toUpperCase() + handle.slice(1, 4)` ++ `" "` ++
`handle.charAt(4).toUpperCase() + handle.slice(5)` (out-of-range `charAt`
and `slice` yield the empty string). -/
def nameVariant3 (s : List Char) : List Char :=
  (match s with
    | [] => []
    | c :: _ => [jsCharUpper c]) ++
    ((s.drop 1).take 3) ++ [' '] ++
    (match s.drop 4 with
      | [] => []
      | c :: _ => [jsCharUpper c]) ++
    s.drop 5

/-- The `nameVariants` array of the route handler. -/
def nameVariants (handle : String) : List String :=
  [ (capFirst handle.data).asString,
    (handle.data.map jsCharUpper).asString,
    (joinSpace ((splitSep handle.data).map capFirst)).asString,
    (nameVariant3 handle.data).asString ]

/-- `parseFloat(x.toFixed(2))`: round to two decimals (nearest, ties up for
the non-negative values that occur here). -/
def toFixed2 (q : ℚ) : ℚ :=
  ((⌊q * 100 + 1 / 2⌋ : ℤ) : ℚ) / 100

/-- The deterministic metric derivation of `analyzeInstagramAccount`
(the generated-data path, i.e. absent enrichment; the best-effort page
fetch can only replace `name` and is discarded on any failure). -/
def analyzeInstagramAccount (handle : String) : InstagramData :=
  let hash := hashOf handle
  let followers := 1000 + (hash * 157) % 500000
  let averageViews := Nat.floor ((followers : ℚ) * (3 / 10 + ((hash % 10 : ℕ) : ℚ) / 20))
  let engagementRate := toFixed2 (3 / 2 + ((hash % 50 : ℕ) : ℚ) / 10)
  let category := categories.getD (hash % categories.length) ""
  let location := locations.getD (hash % locations.length) ""
  let name := (nameVariants handle).getD (hash % (nameVariants handle).length) ""
  { handle := handle, name := name, followers := followers,
    averageViews := averageViews, category := category,
    engagementRate := engagementRate, location := location }

/-- The request body's `handle` field as seen by the route handler:
absent (or a non-string JSON value), or a string.  All non-string values
and the empty string fail the `!handle || typeof handle !== 'string'`
guard identically. -/
inductive ReqHandle
  | missing
  | nonString
  | str (s : String)
  deriving DecidableEq

/-- A JSON response of the route handler: `200` with a record, or an
error status with a message. -/
inductive ApiResponse
  | ok (data : InstagramData)
  | jsonError (status : ℕ) (msg : String)
  deriving DecidableEq

/-- The `POST` route handler (for a well-formed JSON request body). -/
def POST : ReqHandle → ApiResponse
  | .missing => .jsonError 400 "Invalid handle provided"
  | .nonString => .jsonError 400 "Invalid handle provided"
  | .str handle =>
    if handle = "" then .jsonError 400 "Invalid handle provided"
    else
      let cleanHandle := cleanHandleStr handle
      if cleanHandle = "" then .jsonError 400 "Handle cannot be empty"
      else if !(regexHandleTest cleanHandle) then .jsonError 400 "Invalid handle format"
      else .ok (analyzeInstagramAccount cleanHandle)

/-! ## Spec-side endpoint definitions (from the spec's words) -/

/-- The hash exactly as the spec words it: the sum of the character codes
of the handle. -/
def specHash (h : String) : ℕ :=
  (h.data.map Char.toNat).sum

/-- The account metrics record exactly as the spec's derivation section
words it, for comparison with `analyzeInstagramAccount`. -/
def specAccountMetrics (h : String) : InstagramData :=
  let hash := specHash h
  let followers := 1000 + (hash * 157) % 500000
  { handle := h
    name := (nameVariants h).getD (hash % 4) ""
    followers := followers
    averageViews := Nat.floor ((followers : ℚ) * (3 / 10 + ((hash % 10 : ℕ) : ℚ) / 20))
    category := categories.getD (hash % 15) ""
    engagementRate := toFixed2 (3 / 2 + ((hash % 50 : ℕ) : ℚ) / 10)
    location := locations.getD (hash % 16) "" }

/-! ## The client page component: state, rows, batch analysis -/

/-- The client-side `status` tag (`'loading' | 'success' | 'error'`);
`loading` is declared but never constructed by the page. -/
inductive RowStatus
  | loading
  | success
  | error
  deriving DecidableEq

/-- A row of the client results table (the client `InstagramData`
interface: the seven record fields plus optional `status` and `error`). -/
structure Row where
  handle : String
  name : String
  followers : ℕ
  averageViews : ℕ
  category : String
  engagementRate : ℚ
  location : String
  status : Option RowStatus
  error : Option String
  deriving DecidableEq

/-- A column key of the results table (`keyof InstagramData` as used by
the seven sortable column headers). -/
inductive SortKey
  | handle
  | name
  | followers
  | averageViews
  | category
  | engagementRate
  | location
  deriving DecidableEq

/-- Sort direction. -/
inductive SortDir
  | asc
  | desc
  deriving DecidableEq

/-- The `sortConfig` state field. -/
structure SortConfig where
  key : SortKey
  direction : SortDir
  deriving DecidableEq

/-- The component state: handle inputs, results, loading flag, sort
configuration. -/
structure ClientState where
  handles : List String
  results : List Row
  loading : Bool
  sortConfig : Option SortConfig
  deriving DecidableEq

/-- A dynamic field value as the comparator sees it: a number or a
string. -/
inductive FieldVal
  | num (q : ℚ)
  | str (s : String)
  deriving DecidableEq

/-- `a[sortConfig.key]`: project a row at a column key. -/
def fieldVal (r : Row) : SortKey → FieldVal
  | .handle => .str r.handle
  | .name => .str r.name
  | .followers => .num (r.followers : ℚ)
  | .averageViews => .num (r.averageViews : ℚ)
  | .category => .str r.category
  | .engagementRate => .num r.engagementRate
  | .location => .str r.location

/-- `String(v)` as used by the comparator.  The numeric case is
unreachable: when either value at a key is numeric, both are, and the
numeric branch is taken. -/
def valString : FieldVal → String
  | .str s => s
  | .num _ => ""

/-- `s.toLowerCase()` (ASCII range). -/
def jsLower (s : String) : String :=
  (s.data.map jsCharLower).asString

/-- ECMAScript string `<`: lexicographic comparison, a strict prefix
being smaller. -/
def charListLt : List Char → List Char → Bool
  | _, [] => false
  | [], _ :: _ => true
  | a :: as, b :: bs => if a < b then true else if b < a then false else charListLt as bs

/-- ECMAScript string `<` on strings. -/
def jsStrLt (a b : String) : Bool :=
  charListLt a.data b.data

/-- The sort comparator of `getSortedResults`: numeric difference when
both values are numbers, otherwise sign comparison of the lower-cased
string forms; the direction flips the sign.  Only the comparator's sign
matters to the sort. -/
def compareRows (cfg : SortConfig) (a b : Row) : ℚ :=
  match fieldVal a cfg.key, fieldVal b cfg.key with
  | .num aVal, .num bVal =>
    (match cfg.direction with
      | .asc => aVal - bVal
      | .desc => bVal - aVal)
  | aVal, bVal =>
    let aStr := jsLower (valString aVal)
    let bStr := jsLower (valString bVal)
    if jsStrLt aStr bStr then (match cfg.direction with | .asc => -1 | .desc => 1)
    else if jsStrLt bStr aStr then (match cfg.direction with | .asc => 1 | .desc => -1)
    else 0

/-- The boolean "not-after" relation induced by the comparator. -/
def rowLe (cfg : SortConfig) (a b : Row) : Bool :=
  decide (compareRows cfg a b ≤ 0)

/-- Insert an element into a sorted list AFTER every element that is
not-after it (so a later-arriving element lands after its ties). -/
def insertStable {α : Type*} (le : α → α → Bool) (a : α) : List α → List α
  | [] => [a]
  | b :: bs => if le b a then b :: insertStable le a bs else a :: b :: bs

/-- Left-to-right insertion pass. -/
def sortStableAux {α : Type*} (le : α → α → Bool) : List α → List α → List α
  | acc, [] => acc
  | acc, a :: as => sortStableAux le (insertStable le a acc) as

/-- Stable insertion sort.  `Array.prototype.sort` is required to be
stable (ES2019), and a stable sort under a consistent comparator has a
uniquely determined result, so stable insertion sort models
`[...results].sort(comparator)`. -/
def sortStable {α : Type*} (le : α → α → Bool) (l : List α) : List α :=
  sortStableAux le [] l

/-- `getSortedResults`: the identity without a sort config, otherwise a
stable sort of a copy of `results` under the comparator. -/
def getSortedResults (st : ClientState) : List Row :=
  match st.sortConfig with
  | none => st.results
  | some cfg => sortStable (rowLe cfg) st.results

/-- The comparator as the claim words it: numeric comparison when both
values at the key are numbers, otherwise case-insensitive lexicographic
order of the string forms. -/
def specLe (cfg : SortConfig) (a b : Row) : Bool :=
  match fieldVal a cfg.key, fieldVal b cfg.key with
  | .num x, .num y =>
    (match cfg.direction with
      | .asc => decide (x ≤ y)
      | .desc => decide (y ≤ x))
  | va, vb =>
    let sa := jsLower (valString va)
    let sb := jsLower (valString vb)
    (match cfg.direction with
      | .asc => jsStrLt sa sb || sa == sb
      | .desc => jsStrLt sb sa || sb == sa)

/-- `updateHandle(index, value)`: store the cleaned text at the index
(the UI only calls it with indices of existing slots; `List.set` is the
in-range write). -/
def updateHandle (st : ClientState) (index : ℕ) (value : String) : ClientState :=
  { st with handles := st.handles.set index (cleanHandleStr value) }

/-- The spec's wording of handle cleaning: strip a LEADING `@`, then trim
surrounding whitespace. -/
def specCleanHandle (s : String) : String :=
  jsTrim (match s.data with
    | '@' :: rest => rest.asString
    | _ => s)

/-- `removeHandleInput(index)`: drop the entry at the index
(`filter((_, i) => i !== index)`), refilling with one empty entry if the
list would become empty. -/
def removeHandleInput (st : ClientState) (index : ℕ) : ClientState :=
  let newHandles := (st.handles.enum.filter (fun p => p.1 != index)).map Prod.snd
  { st with handles := if newHandles.length = 0 then [""] else newHandles }

/-- The outcome of one `fetch('/api/analyze', ...)` call as the client
sees it: an OK response with a record, a non-OK response whose JSON body
may carry an `error` string, or a thrown network/parse failure. -/
inductive FetchOutcome
  | ok (data : InstagramData)
  | httpError (errField : Option String)
  | networkFailure

/-- `data.error || 'Failed to fetch data'` (an absent or empty `error`
field is falsy). -/
def httpErrMsg : Option String → String
  | some e => if e = "" then "Failed to fetch data" else e
  | none => "Failed to fetch data"

/-- `{ ...data, status: 'success' }`. -/
def rowOfSuccess (d : InstagramData) : Row :=
  { handle := d.handle, name := d.name, followers := d.followers,
    averageViews := d.averageViews, category := d.category,
    engagementRate := d.engagementRate, location := d.location,
    status := some RowStatus.success, error := none }

/-- The error row pushed on a failed handle: original handle, `'N/A'`
texts, zeroed numbers, error tag and message. -/
def errorRowFor (handle msg : String) : Row :=
  { handle := handle, name := "N/A", followers := 0, averageViews := 0,
    category := "N/A", engagementRate := 0, location := "N/A",
    status := some RowStatus.error, error := some msg }

/-- One loop iteration of `analyzeAccounts` for a handle, given the fetch
outcome of its request. -/
def processOutcome (handle : String) : FetchOutcome → Row
  | .ok d => rowOfSuccess d
  | .httpError ef => errorRowFor handle (httpErrMsg ef)
  | .networkFailure => errorRowFor handle "Network error"

/-- `handles.filter(h => h.trim() !== '')`. -/
def validHandlesOf (handles : List String) : List String :=
  handles.filter (fun h => jsTrim h != "")

/-- `analyzeAccounts`, with the i-th sequential request's outcome given
by `out i`: a no-op when no handle is non-blank, otherwise one record per
valid handle in input order, the results list replaced and loading
cleared (it is set at the start and cleared after the loop; the final
state is modelled). -/
def analyzeAccounts (out : ℕ → FetchOutcome) (st : ClientState) : ClientState :=
  let validHandles := validHandlesOf st.handles
  if validHandles.length = 0 then st
  else
    { st with
      results := validHandles.enum.map (fun p => processOutcome p.2 (out p.1)),
      loading := false }

/-! ## Exports -/

/-- A triggered file download: serialized content, MIME type, and
filename. -/
structure FileArtifact where
  content : String
  mime : String
  filename : String
  deriving DecidableEq

/-- `exportToCSV`, with `Papa.unparse` (an external collaborator) and the
current date string as parameters. -/
def exportToCSV (unparse : List (List (String × FieldVal)) → String)
    (dateStr : String) (st : ClientState) : FileArtifact :=
  let csvData := st.results.map (fun r =>
    [("Handle", FieldVal.str r.handle),
      ("Name", FieldVal.str r.name),
      ("Followers", FieldVal.num (r.followers : ℚ)),
      ("Average Views", FieldVal.num (r.averageViews : ℚ)),
      ("Category", FieldVal.str r.category),
      ("Engagement Rate (%)", FieldVal.num r.engagementRate),
      ("Location", FieldVal.str r.location)])
  { content := unparse csvData
    mime := "text/csv"
    filename := "instagram-analysis-" ++ dateStr ++ ".csv" }

/-- `exportToExcel`: the same row mapping serialized by the same
`Papa.unparse`, under an Excel MIME type and `.xlsx` extension. -/
def exportToExcel (unparse : List (List (String × FieldVal)) → String)
    (dateStr : String) (st : ClientState) : FileArtifact :=
  let data := st.results.map (fun r =>
    [("Handle", FieldVal.str r.handle),
      ("Name", FieldVal.str r.name),
      ("Followers", FieldVal.num (r.followers : ℚ)),
      ("Average Views", FieldVal.num (r.averageViews : ℚ)),
      ("Category", FieldVal.str r.category),
      ("Engagement Rate (%)", FieldVal.num r.engagementRate),
      ("Location", FieldVal.str r.location)])
  { content := unparse data
    mime := "application/vnd.ms-excel"
    filename := "instagram-analysis-" ++ dateStr ++ ".xlsx" }

/-- The per-row column mapping both exports use (the spec's name-mapped
column headers), for stating what the exports serialize. -/
def exportRecord (r : Row) : List (String × FieldVal) :=
  [("Handle", FieldVal.str r.handle),
    ("Name", FieldVal.str r.name),
    ("Followers", FieldVal.num (r.followers : ℚ)),
    ("Average Views", FieldVal.num (r.averageViews : ℚ)),
    ("Category", FieldVal.str r.category),
    ("Engagement Rate (%)", FieldVal.num r.engagementRate),
    ("Location", FieldVal.str r.location)]

/-- A default row used with `List.getD`. -/
def dummyRow : Row :=
  { handle := "", name := "", followers := 0, averageViews := 0,
    category := "", engagementRate := 0, location := "",
    status := none, error := none }


/-! ## Concrete fixtures used by witness theorems -/

/-- Fixtures for the C4 witness: one OK outcome, then HTTP errors. -/
def wData : InstagramData :=
  { handle := "alice", name := "Alice", followers := 5, averageViews := 2,
    category := "X", engagementRate := 2, location := "Y" }

def wOutcome : ℕ → FetchOutcome :=
  fun i => if i = 0 then FetchOutcome.ok wData else FetchOutcome.httpError (some "boom")

def wStBatch : ClientState :=
  { handles := ["alice", " ", "bob"], results := [], loading := true, sortConfig := none }

def wStBlankOnly : ClientState :=
  { handles := ["", "  "], results := [dummyRow], loading := false, sortConfig := none }

/-- Fixture rows and state for the C5 witness: stored order
`["Zeta", "alpha"]`, sorted by handle ascending. -/
def wRowAlpha : Row :=
  { handle := "alpha", name := "", followers := 1, averageViews := 0,
    category := "", engagementRate := 0, location := "",
    status := some RowStatus.success, error := none }

def wRowZeta : Row :=
  { handle := "Zeta", name := "", followers := 5, averageViews := 0,
    category := "", engagementRate := 0, location := "",
    status := some RowStatus.success, error := none }

def wStHandleSort : ClientState :=
  { handles := [], results := [wRowZeta, wRowAlpha], loading := false,
    sortConfig := some { key := SortKey.handle, direction := SortDir.asc } }

/-- Fixture rows for C6: two tied follower counts (5, 5) and one
distinct (1). -/
def wTieA : Row :=
  { handle := "a", name := "", followers := 5, averageViews := 0,
    category := "", engagementRate := 0, location := "",
    status := some RowStatus.success, error := none }

def wTieB : Row :=
  { handle := "b", name := "", followers := 5, averageViews := 0,
    category := "", engagementRate := 0, location := "",
    status := some RowStatus.success, error := none }

def wTieC : Row :=
  { handle := "c", name := "", followers := 1, averageViews := 0,
    category := "", engagementRate := 0, location := "",
    status := some RowStatus.success, error := none }

def wStTieDesc : ClientState :=
  { handles := [], results := [wTieA, wTieB, wTieC], loading := false,
    sortConfig := some { key := SortKey.followers, direction := SortDir.desc } }

def wStTieAsc : ClientState :=
  { handles := [], results := [wTieA, wTieB, wTieC], loading := false,
    sortConfig := some { key := SortKey.followers, direction := SortDir.asc } }

/-- Witness for C6 (amended) at followers 5, 1, 3. -/
def wRowSevenA : Row :=
  { handle := "x", name := "", followers := 5, averageViews := 0,
    category := "", engagementRate := 0, location := "",
    status := some RowStatus.success, error := none }

def wRowSevenB : Row :=
  { handle := "y", name := "", followers := 1, averageViews := 0,
    category := "", engagementRate := 0, location := "",
    status := some RowStatus.success, error := none }

def wRowSevenC : Row :=
  { handle := "z", name := "", followers := 3, averageViews := 0,
    category := "", engagementRate := 0, location := "",
    status := some RowStatus.success, error := none }

/-- A concrete serializer standing in for `Papa.unparse` in the C10
witness. -/
def wUnparse (rows : List (List (String × FieldVal))) : String :=
  String.join (rows.map (fun r => String.join (r.map Prod.fst)))

/-- Two states sharing the stored results but with different (present
versus absent) sort configurations; the sorted render order differs from
the stored order, yet the exports agree. -/
def wStExpSorted : ClientState :=
  { handles := [], results := [wRowZeta, wRowAlpha], loading := false,
    sortConfig := some { key := SortKey.followers, direction := SortDir.asc } }

def wStExpNoSort : ClientState :=
  { handles := [], results := [wRowZeta, wRowAlpha], loading := false,
    sortConfig := none }

/-! ## Theorems -/

theorem hashOf_eq_specHash (s : String) : hashOf s = specHash s := by
  simp [hashOf, specHash, List.sum_eq_foldl, List.foldl_map]

theorem toFixed2_fixed (j : ℕ) :
    toFixed2 (3 / 2 + (j : ℚ) / 10) = 3 / 2 + (j : ℚ) / 10 := by
  rw [toFixed2,
    show ((3 : ℚ) / 2 + (j : ℚ) / 10) * 100 + 1 / 2 =
      (1 / 2 : ℚ) + ((150 + 10 * j : ℤ) : ℚ) by push_cast; ring,
    Int.floor_add_int]
  norm_num
  ring

/-- Claim C1: for every valid handle (non-empty, `[A-Za-z0-9._]+`), the
endpoint's metric derivation computes the hash as the sum of character
codes and derives followers, averageViews, engagementRate (whose rounding
to two decimals is the identity here), category, location and name exactly
as the spec states, absent enrichment. -/
theorem claim1_metric_derivation (h : String) (hv : regexHandleTest h = true) :
    analyzeInstagramAccount h = specAccountMetrics h ∧
    (analyzeInstagramAccount h).engagementRate =
      3 / 2 + ((specHash h % 50 : ℕ) : ℚ) / 10 ∧
    categories.length = 15 ∧ locations.length = 16 ∧
    (nameVariants h).length = 4 := by
  refine ⟨?_, ?_, by decide, by decide, rfl⟩
  · simp only [analyzeInstagramAccount, specAccountMetrics, hashOf_eq_specHash]
    rfl
  · simp only [analyzeInstagramAccount, hashOf_eq_specHash]
    exact toFixed2_fixed _

/-- Witness for C1 at the concrete handle `"test"`. -/
theorem claim1_metric_derivation_witness :
    regexHandleTest "test" = true ∧
    (analyzeInstagramAccount "test" = specAccountMetrics "test" ∧
      (analyzeInstagramAccount "test").engagementRate =
        3 / 2 + ((specHash "test" % 50 : ℕ) : ℚ) / 10 ∧
      categories.length = 15 ∧ locations.length = 16 ∧
      (nameVariants "test").length = 4) :=
  ⟨by decide, claim1_metric_derivation "test" (by decide)⟩

/-- Counterexample for C2: at handle `"test"` the category returned is not
`"Fashion"`: index 13 of the fixed category list is `"Education"`
(`"Fashion"` is index 8). -/
theorem claim2_counterexample :
    (analyzeInstagramAccount "test").category ≠ "Fashion" ∧
    categories.getD 13 "" = "Education" := by
  exact ⟨by decide, by decide⟩

/-- Claim C2 (amended): for handle `"test"` the endpoint (absent
enrichment) returns followers = 71336 (hash = 448, 1000 + 70336),
category = `"Education"` (index 13 = 448 mod 15 of the fixed list), and
location = `"Los Angeles, CA"` (index 0 = 448 mod 16). -/
theorem claim2_amended :
    hashOf "test" = 448 ∧
    (analyzeInstagramAccount "test").followers = 71336 ∧
    (analyzeInstagramAccount "test").category = "Education" ∧
    (analyzeInstagramAccount "test").location = "Los Angeles, CA" ∧
    POST (.str "test") = .ok (analyzeInstagramAccount "test") :=
  ⟨by decide, by decide, by decide, by decide, rfl⟩

/-- Counterexample for C3: the handle `""` is present and is a string, yet
the handler answers `"Invalid handle provided"` (the `!handle` guard is
truthy on the empty string), so that message is not equivalent to
"missing or not a string". -/
theorem claim3_counterexample :
    ¬ ((POST (.str "") = .jsonError 400 "Invalid handle provided") ↔
      (ReqHandle.str "" = ReqHandle.missing ∨
        ReqHandle.str "" = ReqHandle.nonString)) := by
  decide

/-- Claim C3 (amended): `"Invalid handle provided"` is returned iff the
handle is missing, not a string, or the empty string; `"Handle cannot be
empty"` iff a non-empty string handle cleans (first `@` removed, then
trimmed) to the empty string; `"Invalid handle format"` iff the cleaned
handle is non-empty and contains a character outside `[A-Za-z0-9._]`;
otherwise the response is `200 OK` with a metrics record.  (The handler is
pure up to its response, so validation failures have no side effects.) -/
theorem claim3_amended (req : ReqHandle) :
    ((POST req = .jsonError 400 "Invalid handle provided") ↔
      (req = .missing ∨ req = .nonString ∨ req = .str "")) ∧
    ((POST req = .jsonError 400 "Handle cannot be empty") ↔
      (∃ s, req = .str s ∧ s ≠ "" ∧ cleanHandleStr s = "")) ∧
    ((POST req = .jsonError 400 "Invalid handle format") ↔
      (∃ s, req = .str s ∧ s ≠ "" ∧ cleanHandleStr s ≠ "" ∧
        (cleanHandleStr s).data.all isHandleChar = false)) ∧
    ((∃ d, POST req = .ok d) ↔
      (∃ s, req = .str s ∧ s ≠ "" ∧ cleanHandleStr s ≠ "" ∧
        (cleanHandleStr s).data.all isHandleChar = true)) := by
  cases req with
  | missing => simp [POST]
  | nonString => simp [POST]
  | str s =>
    by_cases hs : s = ""
    · subst hs
      simp [POST]
    · by_cases hc : cleanHandleStr s = ""
      · simp [POST, hs, hc]
      · cases hall : (cleanHandleStr s).data.all isHandleChar with
        | true =>
          have hreg : regexHandleTest (cleanHandleStr s) = true := by
            simp [regexHandleTest, hall, bne_iff_ne, hc]
          simp only [POST, hs, hc, hreg, if_false, if_neg hs, if_neg hc,
            Bool.not_true, Bool.false_eq_true, ite_false, hall]
          simp [hs, hc, hall]
          exact List.all_eq_true.mp hall
        | false =>
          have hreg : regexHandleTest (cleanHandleStr s) = false := by
            simp [regexHandleTest, hall]
          simp only [POST, if_neg hs, if_neg hc, hreg, Bool.not_false,
            ite_true, hall]
          simp [hs, hc, hall]
          simpa using List.all_eq_false.mp hall

/-! Helper lemmas: `filter((_, i) => i !== index)` over an enumeration is
`eraseIdx`. -/

theorem enumFrom_filter_gt {α : Type*} (l : List α) : ∀ (m k : ℕ), k < m →
    (List.enumFrom m l).filter (fun p => p.1 != k) = List.enumFrom m l := by
  induction l with
  | nil => intro m k hk; rfl
  | cons a t ih =>
    intro m k hk
    simp only [List.enumFrom, List.filter_cons]
    rw [if_pos (by simp only [bne_iff_ne, ne_eq]; omega)]
    rw [ih (m + 1) k (by omega)]

theorem enumFrom_filter_map_eraseIdx {α : Type*} (l : List α) : ∀ (n i : ℕ),
    ((List.enumFrom n l).filter (fun p => p.1 != n + i)).map Prod.snd = l.eraseIdx i := by
  induction l with
  | nil => intro n i; rfl
  | cons a t ih =>
    intro n i
    cases i with
    | zero =>
      simp only [List.enumFrom, List.filter_cons]
      rw [if_neg (by simp)]
      rw [enumFrom_filter_gt t (n + 1) (n + 0) (by omega)]
      simp [List.enumFrom_map_snd]
    | succ j =>
      simp only [List.enumFrom, List.filter_cons]
      rw [if_pos (by simp only [bne_iff_ne, ne_eq]; omega)]
      simp only [List.map_cons]
      rw [show n + (j + 1) = (n + 1) + j by omega, ih (n + 1) j]
      simp [List.eraseIdx_cons_succ]

theorem enum_filter_map_eraseIdx {α : Type*} (l : List α) (i : ℕ) :
    (l.enum.filter (fun p => p.1 != i)).map Prod.snd = l.eraseIdx i := by
  rw [List.enum_eq_enumFrom]
  simpa using enumFrom_filter_map_eraseIdx l 0 i

/-- Claim C8: `removeHandleSlot` leaves a non-empty list: it removes the
entry at the index, and reinitializes to exactly one empty entry if the
list would become empty (in particular when removing the last slot). -/
theorem claim8_remove_slot (st : ClientState) (i : ℕ) :
    (removeHandleInput st i).handles ≠ [] ∧
    (st.handles.eraseIdx i = [] → (removeHandleInput st i).handles = [""]) ∧
    (st.handles.eraseIdx i ≠ [] → (removeHandleInput st i).handles = st.handles.eraseIdx i) := by
  simp only [removeHandleInput, enum_filter_map_eraseIdx]
  by_cases h : (st.handles.eraseIdx i).length = 0
  · rw [if_pos h]
    exact ⟨by simp, fun _ => rfl, fun hne => absurd (List.length_eq_zero.mp h) hne⟩
  · rw [if_neg h]
    exact ⟨fun hc => h (by simp [hc]), fun he => (h (by simp [he])).elim, fun _ => rfl⟩

/-- Witness for C8: removing the only slot refills with one empty slot;
removing the head of a two-slot list keeps the other slot. -/
theorem claim8_remove_slot_witness :
    (removeHandleInput
      { handles := ["solo"], results := [], loading := false, sortConfig := none } 0).handles = [""] ∧
    (removeHandleInput
      { handles := ["a", "b"], results := [], loading := false, sortConfig := none } 0).handles = ["b"] :=
  ⟨(claim8_remove_slot
      { handles := ["solo"], results := [], loading := false, sortConfig := none } 0).2.1 rfl,
    (claim8_remove_slot
      { handles := ["a", "b"], results := [], loading := false, sortConfig := none } 0).2.2 (by decide)⟩

/-- Counterexample for C7: the cleaning removes the FIRST `@` anywhere in
the input, not only a leading one: `"a@b"` becomes `"ab"`, while the
claim's leading-`@`-only cleaning would keep `"a@b"`. -/
theorem claim7_counterexample :
    cleanHandleStr "a@b" = "ab" ∧ specCleanHandle "a@b" = "a@b" ∧
    ("ab" : String) ≠ "a@b" :=
  ⟨by decide, by decide, by decide⟩

/-- Claim C7 (amended): the stored/validated handle equals the input with
the first `@` occurrence (anywhere) removed and then surrounding
whitespace trimmed — identically in `setHandle` on the client and in the
endpoint's cleaning (the record's handle field is the cleaned string). -/
theorem claim7_clean_handle (st : ClientState) (i : ℕ) (v : String)
    (hi : i < st.handles.length) :
    (updateHandle st i v).handles.getD i "" = jsTrim (jsRemoveFirstAt v) ∧
    (∀ s d, POST (.str s) = .ok d → d.handle = jsTrim (jsRemoveFirstAt s)) := by
  constructor
  · simp only [updateHandle]
    rw [List.getD_eq_getElem _ _ (by simpa using hi)]
    simp [cleanHandleStr]
  · intro s d hpost
    simp only [POST] at hpost
    split_ifs at hpost
    all_goals cases hpost
    all_goals rfl

/-- Witness for C7 at slot 0 and input `" a@b "`. -/
theorem claim7_clean_handle_witness :
    (updateHandle { handles := ["x"], results := [], loading := false, sortConfig := none }
        0 " a@b ").handles.getD 0 "" = jsTrim (jsRemoveFirstAt " a@b ") ∧
    (∀ s d, POST (.str s) = .ok d → d.handle = jsTrim (jsRemoveFirstAt s)) :=
  claim7_clean_handle
    { handles := ["x"], results := [], loading := false, sortConfig := none } 0 " a@b " (by decide)

/-- Claim C9: both exports serialize the identical delimited content and
differ only in MIME type and file extension. -/
theorem claim9_export_equivalence (unparse : List (List (String × FieldVal)) → String)
    (dateStr : String) (st : ClientState) :
    (exportToCSV unparse dateStr st).content = (exportToExcel unparse dateStr st).content ∧
    (exportToCSV unparse dateStr st).mime = "text/csv" ∧
    (exportToExcel unparse dateStr st).mime = "application/vnd.ms-excel" ∧
    (exportToCSV unparse dateStr st).filename = "instagram-analysis-" ++ dateStr ++ ".csv" ∧
    (exportToExcel unparse dateStr st).filename = "instagram-analysis-" ++ dateStr ++ ".xlsx" :=
  ⟨rfl, rfl, rfl, rfl, rfl⟩

/-- Claim C10: export content depends only on the stored results list —
states differing in sort key/direction (or anything but `results`)
serialize identically, and the serialized rows are the stored (fetch)
order `results.map exportRecord`, not the rendered sorted order. -/
theorem claim10_export_ignores_sort (unparse : List (List (String × FieldVal)) → String)
    (dateStr : String) (st1 st2 : ClientState) (hres : st1.results = st2.results) :
    (exportToCSV unparse dateStr st1).content = (exportToCSV unparse dateStr st2).content ∧
    (exportToExcel unparse dateStr st1).content = (exportToExcel unparse dateStr st2).content ∧
    (exportToCSV unparse dateStr st1).content = unparse (st1.results.map exportRecord) ∧
    (exportToExcel unparse dateStr st1).content = unparse (st1.results.map exportRecord) := by
  refine ⟨?_, ?_, rfl, rfl⟩ <;> simp [exportToCSV, exportToExcel, hres]

/-- Counterexample-free claim C4 pieces: the batch loop behaviour. -/
theorem claim4_batch (out : ℕ → FetchOutcome) (st : ClientState) :
    (validHandlesOf st.handles = [] → analyzeAccounts out st = st) ∧
    (validHandlesOf st.handles ≠ [] →
      (analyzeAccounts out st).loading = false ∧
      (analyzeAccounts out st).results.length = (validHandlesOf st.handles).length ∧
      (∀ i, i < (validHandlesOf st.handles).length →
        (analyzeAccounts out st).results.getD i dummyRow =
          processOutcome ((validHandlesOf st.handles).getD i "") (out i))) ∧
    (∀ h d, processOutcome h (FetchOutcome.ok d) = rowOfSuccess d) ∧
    (∀ h ef, processOutcome h (FetchOutcome.httpError ef) = errorRowFor h (httpErrMsg ef)) ∧
    (∀ h, processOutcome h FetchOutcome.networkFailure = errorRowFor h "Network error") ∧
    (∀ h m, (errorRowFor h m).handle = h ∧ (errorRowFor h m).followers = 0 ∧
      (errorRowFor h m).averageViews = 0 ∧ (errorRowFor h m).engagementRate = 0 ∧
      (errorRowFor h m).status = some RowStatus.error ∧
      (errorRowFor h m).error = some m) := by
  refine ⟨?_, ?_, fun _ _ => rfl, fun _ _ => rfl, fun _ => rfl,
    fun _ _ => ⟨rfl, rfl, rfl, rfl, rfl, rfl⟩⟩
  · intro h
    simp [analyzeAccounts, h]
  · intro h
    have hlen : ¬ (validHandlesOf st.handles).length = 0 := by
      simpa [List.length_eq_zero] using h
    refine ⟨?_, ?_, ?_⟩
    · simp [analyzeAccounts, hlen]
    · simp [analyzeAccounts, hlen, List.enum_length]
    · intro i hi
      simp only [analyzeAccounts, if_neg hlen]
      rw [List.getD_eq_getElem _ _ (by simpa [List.enum_length] using hi)]
      rw [List.getElem_map, List.getElem_enum]
      rw [List.getD_eq_getElem _ _ hi]

/-- Witness for C4 (amended): a concrete batch of two valid handles and a
blank-only state. -/
theorem claim4_batch_witness :
    analyzeAccounts wOutcome wStBlankOnly = wStBlankOnly ∧
    ((analyzeAccounts wOutcome wStBatch).loading = false ∧
      (analyzeAccounts wOutcome wStBatch).results.length = (validHandlesOf wStBatch.handles).length ∧
      (∀ i, i < (validHandlesOf wStBatch.handles).length →
        (analyzeAccounts wOutcome wStBatch).results.getD i dummyRow =
          processOutcome ((validHandlesOf wStBatch.handles).getD i "") (wOutcome i))) :=
  ⟨(claim4_batch wOutcome wStBlankOnly).1 (by decide),
    (claim4_batch wOutcome wStBatch).2.1 (by decide)⟩

/-- Counterexample for C4: with only blank handles the function is a
no-op, so a previous non-empty results list is NOT replaced (the claim's
universal reading would require it to become the empty record list). -/
theorem claim4_counterexample :
    (analyzeAccounts (fun _ => FetchOutcome.networkFailure)
        { handles := [""], results := [dummyRow], loading := false, sortConfig := none }).results
      = [dummyRow] ∧ ([dummyRow] : List Row) ≠ [] :=
  ⟨rfl, by decide⟩

/-! ## Stable sort infrastructure -/

theorem mem_insertStable {α : Type*} (le : α → α → Bool) (x : α) :
    ∀ (m : List α) (z : α), z ∈ insertStable le x m ↔ z = x ∨ z ∈ m := by
  intro m
  induction m with
  | nil => intro z; simp [insertStable]
  | cons b bs ih =>
    intro z
    by_cases hle : le b x = true
    · simp only [insertStable, if_pos hle, List.mem_cons, ih z]
      tauto
    · simp only [insertStable, if_neg hle, List.mem_cons]

theorem insertStable_perm {α : Type*} (le : α → α → Bool) (x : α) :
    ∀ (m : List α), (insertStable le x m).Perm (x :: m) := by
  intro m
  induction m with
  | nil => simp [insertStable]
  | cons b bs ih =>
    by_cases hle : le b x = true
    · simp only [insertStable, if_pos hle]
      exact (ih.cons b).trans (List.Perm.swap x b bs)
    · simp only [insertStable, if_neg hle]
      exact List.Perm.refl _

theorem sublist_insertStable {α : Type*} (le : α → α → Bool) (x : α) :
    ∀ (m : List α), m.Sublist (insertStable le x m) := by
  intro m
  induction m with
  | nil => simp [insertStable]
  | cons b bs ih =>
    by_cases hle : le b x = true
    · simp only [insertStable, if_pos hle]
      exact ih.cons₂ b
    · simp only [insertStable, if_neg hle]
      exact List.Sublist.cons x (List.Sublist.refl (b :: bs))

theorem pairwise_insertStable {α : Type*} {le : α → α → Bool}
    (htrans : ∀ a b c, le a b = true → le b c = true → le a c = true)
    (htot : ∀ a b, le a b = true ∨ le b a = true) (x : α) :
    ∀ (m : List α), m.Pairwise (fun a b => le a b = true) →
      (insertStable le x m).Pairwise (fun a b => le a b = true) := by
  intro m
  induction m with
  | nil => intro _; simp [insertStable]
  | cons b bs ih =>
    intro hm
    rcases List.pairwise_cons.mp hm with ⟨hb, hbs⟩
    by_cases hle : le b x = true
    · simp only [insertStable, if_pos hle]
      refine List.pairwise_cons.mpr ⟨?_, ih hbs⟩
      intro z hz
      rcases (mem_insertStable le x bs z).mp hz with rfl | hz
      · exact hle
      · exact hb z hz
    · simp only [insertStable, if_neg hle]
      have hxb : le x b = true := (htot x b).resolve_right (by simpa using hle)
      refine List.pairwise_cons.mpr ⟨?_, hm⟩
      intro z hz
      rcases List.mem_cons.mp hz with rfl | hz
      · exact hxb
      · exact htrans x b z hxb (hb z hz)

theorem insertStable_pair {α : Type*} {le : α → α → Bool}
    (htrans : ∀ a b c, le a b = true → le b c = true → le a c = true)
    {a x : α} (hax : le a x = true) :
    ∀ (m : List α), m.Pairwise (fun p q => le p q = true) → a ∈ m →
      List.Sublist [a, x] (insertStable le x m) := by
  intro m
  induction m with
  | nil => intro _ ha; cases ha
  | cons b bs ih =>
    intro hm ha
    rcases List.pairwise_cons.mp hm with ⟨hb, hbs⟩
    by_cases hle : le b x = true
    · simp only [insertStable, if_pos hle]
      rcases List.mem_cons.mp ha with rfl | ha
      · exact (List.singleton_sublist.mpr
          ((mem_insertStable le x bs x).mpr (Or.inl rfl))).cons₂ a
      · exact (ih hbs ha).cons b
    · rcases List.mem_cons.mp ha with rfl | ha
      · exact absurd hax hle
      · exact absurd (htrans b a x (hb a ha) hax) hle

theorem sortStableAux_perm {α : Type*} (le : α → α → Bool) :
    ∀ (rest acc : List α), (sortStableAux le acc rest).Perm (acc ++ rest) := by
  intro rest
  induction rest with
  | nil => intro acc; simp [sortStableAux]
  | cons x rest' ih =>
    intro acc
    have h1 : (sortStableAux le (insertStable le x acc) rest').Perm
        ((insertStable le x acc) ++ rest') := ih (insertStable le x acc)
    have h2 : ((insertStable le x acc) ++ rest').Perm ((x :: acc) ++ rest') :=
      (insertStable_perm le x acc).append_right rest'
    have h3 : ((x :: acc) ++ rest').Perm (acc ++ x :: rest') := by
      simpa using List.perm_middle.symm
    exact (h1.trans h2).trans h3

theorem sortStable_perm {α : Type*} (le : α → α → Bool) (l : List α) :
    (sortStable le l).Perm l := by
  simpa using sortStableAux_perm le l []

theorem sortStableAux_pairwise {α : Type*} {le : α → α → Bool}
    (htrans : ∀ a b c, le a b = true → le b c = true → le a c = true)
    (htot : ∀ a b, le a b = true ∨ le b a = true) :
    ∀ (rest acc : List α), acc.Pairwise (fun a b => le a b = true) →
      (sortStableAux le acc rest).Pairwise (fun a b => le a b = true) := by
  intro rest
  induction rest with
  | nil => intro acc h; exact h
  | cons x rest' ih =>
    intro acc h
    exact ih (insertStable le x acc) (pairwise_insertStable htrans htot x acc h)

theorem sortStable_pairwise {α : Type*} {le : α → α → Bool}
    (htrans : ∀ a b c, le a b = true → le b c = true → le a c = true)
    (htot : ∀ a b, le a b = true ∨ le b a = true) (l : List α) :
    (sortStable le l).Pairwise (fun a b => le a b = true) :=
  sortStableAux_pairwise htrans htot l [] (List.Pairwise.nil)

theorem sortStableAux_stable_pair {α : Type*} {le : α → α → Bool}
    (htrans : ∀ a b c, le a b = true → le b c = true → le a c = true)
    (htot : ∀ a b, le a b = true ∨ le b a = true) {a b : α}
    (hab : le a b = true) :
    ∀ (rest acc : List α), acc.Pairwise (fun p q => le p q = true) →
      (List.Sublist [a, b] acc ∨ (a ∈ acc ∧ b ∈ rest) ∨ List.Sublist [a, b] rest) →
      List.Sublist [a, b] (sortStableAux le acc rest) := by
  intro rest
  induction rest with
  | nil =>
    intro acc hacc hd
    rcases hd with h1 | ⟨_, hb⟩ | h3
    · exact h1
    · cases hb
    · simp at h3
  | cons x rest' ih =>
    intro acc hacc hd
    have hacc' : (insertStable le x acc).Pairwise (fun p q => le p q = true) :=
      pairwise_insertStable htrans htot x acc hacc
    rcases hd with h1 | ⟨haacc, hbrest⟩ | h3
    · exact ih (insertStable le x acc) hacc'
        (Or.inl (h1.trans (sublist_insertStable le x acc)))
    · rcases List.mem_cons.mp hbrest with rfl | hb'
      · exact ih (insertStable le b acc) hacc'
          (Or.inl (insertStable_pair htrans hab acc hacc haacc))
      · exact ih (insertStable le x acc) hacc'
          (Or.inr (Or.inl ⟨(mem_insertStable le x acc a).mpr (Or.inr haacc), hb'⟩))
    · cases h3 with
      | cons _ h => exact ih (insertStable le x acc) hacc' (Or.inr (Or.inr h))
      | cons₂ _ h =>
        exact ih (insertStable le a acc) hacc'
          (Or.inr (Or.inl ⟨(mem_insertStable le a acc a).mpr (Or.inl rfl),
            List.singleton_sublist.mp h⟩))

theorem sortStable_stable_pair {α : Type*} {le : α → α → Bool}
    (htrans : ∀ a b c, le a b = true → le b c = true → le a c = true)
    (htot : ∀ a b, le a b = true ∨ le b a = true) {a b : α} {l : List α}
    (hab : le a b = true) (hsub : List.Sublist [a, b] l) :
    List.Sublist [a, b] (sortStable le l) :=
  sortStableAux_stable_pair htrans htot hab l [] List.Pairwise.nil (Or.inr (Or.inr hsub))

theorem eq_of_perm_of_pairwise {α : Type*} {R : α → α → Prop} :
    ∀ {l₁ l₂ : List α}, l₁.Perm l₂ → l₁.Pairwise R → l₂.Pairwise R →
      (∀ a ∈ l₁, ∀ b ∈ l₁, R a b → R b a → a = b) → l₁ = l₂ := by
  intro l₁
  induction l₁ with
  | nil =>
    intro l₂ hp _ _ _
    exact hp.nil_eq
  | cons a t ih =>
    intro l₂ hp hp1 hp2 hanti
    cases l₂ with
    | nil => exact absurd hp.symm.nil_eq (by simp)
    | cons b t₂ =>
      rcases List.pairwise_cons.mp hp1 with ⟨ha1, ht1⟩
      rcases List.pairwise_cons.mp hp2 with ⟨hb2, ht2⟩
      have hab : a = b := by
        have hbmem : b ∈ a :: t := hp.symm.mem_iff.mp (List.mem_cons_self b t₂)
        rcases List.mem_cons.mp hbmem with rfl | hbt
        · rfl
        · have hamem : a ∈ b :: t₂ := hp.mem_iff.mp (List.mem_cons_self a t)
          rcases List.mem_cons.mp hamem with rfl | hat₂
          · rfl
          · exact hanti a (List.mem_cons_self a t) b hbmem (ha1 b hbt) (hb2 a hat₂)
      subst hab
      have ht : t.Perm t₂ := hp.cons_inv
      rw [ih ht ht1 ht2 (fun x hx y hy hxy hyx =>
        hanti x (List.mem_cons_of_mem a hx) y (List.mem_cons_of_mem a hy) hxy hyx)]

/-! ## Order properties of the ECMAScript string comparison -/

theorem charListLt_irrefl : ∀ a : List Char, charListLt a a = false := by
  intro a
  induction a with
  | nil => rfl
  | cons c cs ih =>
    simp only [charListLt, if_neg (lt_irrefl c)]
    exact ih

theorem charListLt_asymm : ∀ a b : List Char,
    charListLt a b = true → charListLt b a = false := by
  intro a
  induction a with
  | nil =>
    intro b h
    cases b with
    | nil => cases h
    | cons d ds => rfl
  | cons c cs ih =>
    intro b h
    cases b with
    | nil => cases h
    | cons d ds =>
      simp only [charListLt] at h ⊢
      rcases lt_trichotomy c d with hcd | hcd | hcd
      · rw [if_neg (not_lt.mpr (le_of_lt hcd)), if_pos hcd]
      · subst hcd
        rw [if_neg (lt_irrefl c)] at h ⊢
        rw [if_neg (lt_irrefl c)] at h ⊢
        exact ih ds h
      · rw [if_pos hcd, if_neg (not_lt.mpr (le_of_lt hcd))] at h
        cases h

theorem charListLt_trans : ∀ a b c : List Char,
    charListLt a b = true → charListLt b c = true → charListLt a c = true := by
  intro a
  induction a with
  | nil =>
    intro b c hab hbc
    cases c with
    | nil =>
      cases b with
      | nil => cases hab
      | cons d ds => cases hbc
    | cons e es => rfl
  | cons x xs ih =>
    intro b c hab hbc
    cases b with
    | nil => cases hab
    | cons y ys =>
      cases c with
      | nil => cases hbc
      | cons z zs =>
        simp only [charListLt] at hab hbc ⊢
        rcases lt_trichotomy x y with hxy | hxy | hxy
        · rcases lt_trichotomy y z with hyz | hyz | hyz
          · rw [if_pos (lt_trans hxy hyz)]
          · subst hyz
            rw [if_pos hxy]
          · rw [if_pos hyz, if_neg (not_lt.mpr (le_of_lt hyz))] at hbc
            cases hbc
        · subst hxy
          rcases lt_trichotomy x z with hxz | hxz | hxz
          · rw [if_pos hxz]
          · subst hxz
            rw [if_neg (lt_irrefl x)] at hab hbc ⊢
            rw [if_neg (lt_irrefl x)] at hab hbc ⊢
            exact ih ys zs hab hbc
          · rw [if_neg (not_lt.mpr (le_of_lt hxz))] at hbc
            rw [if_pos hxz] at hbc
            cases hbc
        · rw [if_pos hxy, if_neg (not_lt.mpr (le_of_lt hxy))] at hab
          cases hab

theorem charListLt_connex : ∀ a b : List Char,
    charListLt a b = false → charListLt b a = false → a = b := by
  intro a
  induction a with
  | nil =>
    intro b hab _
    cases b with
    | nil => rfl
    | cons d ds => cases hab
  | cons c cs ih =>
    intro b hab hba
    cases b with
    | nil => cases hba
    | cons d ds =>
      simp only [charListLt] at hab hba
      rcases lt_trichotomy c d with hcd | hcd | hcd
      · rw [if_pos hcd] at hab
        cases hab
      · subst hcd
        rw [if_neg (lt_irrefl c)] at hab hba
        rw [if_neg (lt_irrefl c)] at hab hba
        rw [ih ds hab hba]
      · rw [if_pos hcd] at hba
        cases hba

theorem jsStrLt_irrefl (a : String) : jsStrLt a a = false :=
  charListLt_irrefl a.data

theorem jsStrLt_asymm {a b : String} (h : jsStrLt a b = true) : jsStrLt b a = false :=
  charListLt_asymm a.data b.data h

theorem jsStrLt_connex {a b : String} (h1 : jsStrLt a b = false)
    (h2 : jsStrLt b a = false) : a = b :=
  String.ext (charListLt_connex a.data b.data h1 h2)

theorem charListLt_neg_trans (a b c : List Char) (hba : charListLt b a = false)
    (hcb : charListLt c b = false) : charListLt c a = false := by
  by_contra hca
  have hca' : charListLt c a = true := by simpa using hca
  cases hab : charListLt a b with
  | true =>
    cases hbc : charListLt b c with
    | true =>
      have hac : charListLt a c = true := charListLt_trans a b c hab hbc
      have : charListLt a a = true := charListLt_trans a c a hac hca'
      rw [charListLt_irrefl a] at this
      cases this
    | false =>
      have hbceq : b = c := charListLt_connex b c hbc hcb
      subst hbceq
      have : charListLt a a = true := charListLt_trans a b a hab hca'
      rw [charListLt_irrefl a] at this
      cases this
  | false =>
    have habeq : a = b := charListLt_connex a b hab hba
    subst habeq
    rw [hca'] at hcb
    cases hcb

theorem jsStrLt_neg_trans_asc {x y z : String} (h1 : jsStrLt y x = false)
    (h2 : jsStrLt z y = false) : jsStrLt z x = false :=
  charListLt_neg_trans x.data y.data z.data h1 h2

theorem jsStrLt_neg_trans_desc {x y z : String} (h1 : jsStrLt x y = false)
    (h2 : jsStrLt y z = false) : jsStrLt x z = false :=
  charListLt_neg_trans z.data y.data x.data h2 h1

theorem jsStrLt_false_total (x y : String) :
    jsStrLt x y = false ∨ jsStrLt y x = false := by
  cases h : jsStrLt x y with
  | true => exact Or.inr (jsStrLt_asymm h)
  | false => exact Or.inl rfl

theorem qsub_total (x y : ℚ) : x - y ≤ 0 ∨ y - x ≤ 0 := by
  rcases le_total x y with h | h
  · exact Or.inl (by linarith)
  · exact Or.inr (by linarith)

theorem qsub_trans (x y z : ℚ) : x - y ≤ 0 → y - z ≤ 0 → x - z ≤ 0 := by
  intro h1 h2
  linarith

theorem qsub_trans_rev (x y z : ℚ) : y - x ≤ 0 → z - y ≤ 0 → z - x ≤ 0 := by
  intro h1 h2
  linarith

theorem ascStrPattern_nonpos_iff (sa sb : String) :
    ((if jsStrLt sa sb then (-1 : ℚ) else if jsStrLt sb sa then 1 else 0) ≤ 0) ↔
      jsStrLt sb sa = false := by
  by_cases h1 : jsStrLt sa sb = true
  · rw [if_pos h1, jsStrLt_asymm h1]
    norm_num
  · rw [if_neg h1]
    by_cases h2 : jsStrLt sb sa = true
    · rw [if_pos h2, h2]
      norm_num
    · rw [if_neg h2]
      simp only [Bool.not_eq_true] at h2
      rw [h2]
      norm_num

theorem descStrPattern_nonpos_iff (sa sb : String) :
    ((if jsStrLt sa sb then (1 : ℚ) else if jsStrLt sb sa then -1 else 0) ≤ 0) ↔
      jsStrLt sa sb = false := by
  by_cases h1 : jsStrLt sa sb = true
  · rw [if_pos h1, h1]
    norm_num
  · rw [if_neg h1]
    simp only [Bool.not_eq_true] at h1
    rw [h1]
    by_cases h2 : jsStrLt sb sa = true
    · rw [if_pos h2]
      norm_num
    · rw [if_neg h2]
      norm_num

theorem decide_sub_nonpos (x y : ℚ) : decide (x - y ≤ 0) = decide (x ≤ y) := by
  simp [sub_nonpos]


theorem decide_ascStrPattern (sa sb : String) :
    decide ((if jsStrLt sa sb then (-1 : ℚ) else if jsStrLt sb sa then 1 else 0) ≤ 0) =
      (jsStrLt sa sb || sa == sb) := by
  by_cases h1 : jsStrLt sa sb = true
  · rw [if_pos h1, h1, decide_eq_true (by norm_num : ((-1 : ℚ) ≤ 0))]
    rfl
  · have h1' : jsStrLt sa sb = false := by simpa using h1
    rw [if_neg h1, h1']
    by_cases h2 : jsStrLt sb sa = true
    · have hne : (sa == sb) = false := by
        simp only [beq_eq_false_iff_ne, ne_eq]
        intro he
        rw [he, jsStrLt_irrefl sb] at h2
        cases h2
      rw [if_pos h2, decide_eq_false (by norm_num : ¬ ((1 : ℚ) ≤ 0))]
      rw [hne]
      rfl
    · have h2' : jsStrLt sb sa = false := by simpa using h2
      rw [if_neg h2, decide_eq_true (by norm_num : ((0 : ℚ) ≤ 0))]
      have heq : sa = sb := jsStrLt_connex h1' h2'
      simp [heq]

theorem decide_descStrPattern (sa sb : String) :
    decide ((if jsStrLt sa sb then (1 : ℚ) else if jsStrLt sb sa then -1 else 0) ≤ 0) =
      (jsStrLt sb sa || sb == sa) := by
  by_cases h1 : jsStrLt sa sb = true
  · have h2' : jsStrLt sb sa = false := jsStrLt_asymm h1
    have hne : (sb == sa) = false := by
      simp only [beq_eq_false_iff_ne, ne_eq]
      intro he
      rw [he] at h1
      rw [jsStrLt_irrefl sa] at h1
      cases h1
    rw [if_pos h1, h2', decide_eq_false (by norm_num : ¬ ((1 : ℚ) ≤ 0)), hne]
    rfl
  · have h1' : jsStrLt sa sb = false := by simpa using h1
    rw [if_neg h1]
    by_cases h2 : jsStrLt sb sa = true
    · rw [if_pos h2, h2, decide_eq_true (by norm_num : ((-1 : ℚ) ≤ 0))]
      rfl
    · have h2' : jsStrLt sb sa = false := by simpa using h2
      rw [if_neg h2, h2', decide_eq_true (by norm_num : ((0 : ℚ) ≤ 0))]
      have heq : sb = sa := jsStrLt_connex h2' h1'
      simp [heq]

theorem ascStrPattern_eq_zero {sa sb : String}
    (h : (if jsStrLt sa sb then (-1 : ℚ) else if jsStrLt sb sa then 1 else 0) = 0) :
    jsStrLt sa sb = false ∧ jsStrLt sb sa = false := by
  by_cases h1 : jsStrLt sa sb = true
  · rw [if_pos h1] at h
    norm_num at h
  · rw [if_neg h1] at h
    by_cases h2 : jsStrLt sb sa = true
    · rw [if_pos h2] at h
      norm_num at h
    · simp only [Bool.not_eq_true] at h1 h2
      exact ⟨h1, h2⟩

theorem descStrPattern_eq_zero {sa sb : String}
    (h : (if jsStrLt sa sb then (1 : ℚ) else if jsStrLt sb sa then -1 else 0) = 0) :
    jsStrLt sa sb = false ∧ jsStrLt sb sa = false := by
  by_cases h1 : jsStrLt sa sb = true
  · rw [if_pos h1] at h
    norm_num at h
  · rw [if_neg h1] at h
    by_cases h2 : jsStrLt sb sa = true
    · rw [if_pos h2] at h
      norm_num at h
    · simp only [Bool.not_eq_true] at h1 h2
      exact ⟨h1, h2⟩

/-! Boolean-level comparator facts, shaped exactly like the goals that
unfold from `rowLe`. -/

theorem boolNum_total (x y : ℚ) :
    decide (x - y ≤ 0) = true ∨ decide (y - x ≤ 0) = true := by
  simp only [decide_eq_true_eq]
  exact qsub_total x y

theorem boolStrAsc_total (sa sb : String) :
    decide ((if jsStrLt sa sb then (-1 : ℚ) else if jsStrLt sb sa then 1 else 0) ≤ 0) = true ∨
    decide ((if jsStrLt sb sa then (-1 : ℚ) else if jsStrLt sa sb then 1 else 0) ≤ 0) = true := by
  simp only [decide_eq_true_eq, ascStrPattern_nonpos_iff]
  exact jsStrLt_false_total sb sa

theorem boolStrDesc_total (sa sb : String) :
    decide ((if jsStrLt sa sb then (1 : ℚ) else if jsStrLt sb sa then -1 else 0) ≤ 0) = true ∨
    decide ((if jsStrLt sb sa then (1 : ℚ) else if jsStrLt sa sb then -1 else 0) ≤ 0) = true := by
  simp only [decide_eq_true_eq, descStrPattern_nonpos_iff]
  exact jsStrLt_false_total sa sb

theorem boolNum_trans (x y z : ℚ) :
    decide (x - y ≤ 0) = true → decide (y - z ≤ 0) = true →
      decide (x - z ≤ 0) = true := by
  simp only [decide_eq_true_eq]
  exact qsub_trans x y z

theorem boolNum_trans_rev (x y z : ℚ) :
    decide (y - x ≤ 0) = true → decide (z - y ≤ 0) = true →
      decide (z - x ≤ 0) = true := by
  simp only [decide_eq_true_eq]
  exact qsub_trans_rev x y z

theorem boolStrAsc_trans (sa sb sc : String) :
    decide ((if jsStrLt sa sb then (-1 : ℚ) else if jsStrLt sb sa then 1 else 0) ≤ 0) = true →
    decide ((if jsStrLt sb sc then (-1 : ℚ) else if jsStrLt sc sb then 1 else 0) ≤ 0) = true →
    decide ((if jsStrLt sa sc then (-1 : ℚ) else if jsStrLt sc sa then 1 else 0) ≤ 0) = true := by
  simp only [decide_eq_true_eq, ascStrPattern_nonpos_iff]
  exact fun h1 h2 => jsStrLt_neg_trans_asc h1 h2

theorem boolStrDesc_trans (sa sb sc : String) :
    decide ((if jsStrLt sa sb then (1 : ℚ) else if jsStrLt sb sa then -1 else 0) ≤ 0) = true →
    decide ((if jsStrLt sb sc then (1 : ℚ) else if jsStrLt sc sb then -1 else 0) ≤ 0) = true →
    decide ((if jsStrLt sa sc then (1 : ℚ) else if jsStrLt sc sa then -1 else 0) ≤ 0) = true := by
  simp only [decide_eq_true_eq, descStrPattern_nonpos_iff]
  exact fun h1 h2 => jsStrLt_neg_trans_desc h1 h2

theorem boolNum_zero (x y : ℚ) (h : x - y = 0) :
    decide (x - y ≤ 0) = true ∧ decide (y - x ≤ 0) = true := by
  simp only [decide_eq_true_eq]
  constructor <;> linarith

theorem boolStrAsc_zero (sa sb : String)
    (h : (if jsStrLt sa sb then (-1 : ℚ) else if jsStrLt sb sa then 1 else 0) = 0) :
    decide ((if jsStrLt sa sb then (-1 : ℚ) else if jsStrLt sb sa then 1 else 0) ≤ 0) = true ∧
    decide ((if jsStrLt sb sa then (-1 : ℚ) else if jsStrLt sa sb then 1 else 0) ≤ 0) = true := by
  rcases ascStrPattern_eq_zero h with ⟨hx, hy⟩
  simp only [decide_eq_true_eq, ascStrPattern_nonpos_iff]
  exact ⟨hy, hx⟩

theorem boolStrDesc_zero (sa sb : String)
    (h : (if jsStrLt sa sb then (1 : ℚ) else if jsStrLt sb sa then -1 else 0) = 0) :
    decide ((if jsStrLt sa sb then (1 : ℚ) else if jsStrLt sb sa then -1 else 0) ≤ 0) = true ∧
    decide ((if jsStrLt sb sa then (1 : ℚ) else if jsStrLt sa sb then -1 else 0) ≤ 0) = true := by
  rcases descStrPattern_eq_zero h with ⟨hx, hy⟩
  simp only [decide_eq_true_eq, descStrPattern_nonpos_iff]
  exact ⟨hx, hy⟩

theorem rowLe_total (cfg : SortConfig) (a b : Row) :
    rowLe cfg a b = true ∨ rowLe cfg b a = true := by
  rcases cfg with ⟨key, dir⟩
  cases key with
  | handle =>
    cases dir with
    | asc =>
      simp only [rowLe, compareRows, fieldVal, valString]
      exact boolStrAsc_total _ _
    | desc =>
      simp only [rowLe, compareRows, fieldVal, valString]
      exact boolStrDesc_total _ _
  | name =>
    cases dir with
    | asc =>
      simp only [rowLe, compareRows, fieldVal, valString]
      exact boolStrAsc_total _ _
    | desc =>
      simp only [rowLe, compareRows, fieldVal, valString]
      exact boolStrDesc_total _ _
  | followers =>
    cases dir with
    | asc =>
      simp only [rowLe, compareRows, fieldVal, valString]
      exact boolNum_total _ _
    | desc =>
      simp only [rowLe, compareRows, fieldVal, valString]
      exact boolNum_total _ _
  | averageViews =>
    cases dir with
    | asc =>
      simp only [rowLe, compareRows, fieldVal, valString]
      exact boolNum_total _ _
    | desc =>
      simp only [rowLe, compareRows, fieldVal, valString]
      exact boolNum_total _ _
  | category =>
    cases dir with
    | asc =>
      simp only [rowLe, compareRows, fieldVal, valString]
      exact boolStrAsc_total _ _
    | desc =>
      simp only [rowLe, compareRows, fieldVal, valString]
      exact boolStrDesc_total _ _
  | engagementRate =>
    cases dir with
    | asc =>
      simp only [rowLe, compareRows, fieldVal, valString]
      exact boolNum_total _ _
    | desc =>
      simp only [rowLe, compareRows, fieldVal, valString]
      exact boolNum_total _ _
  | location =>
    cases dir with
    | asc =>
      simp only [rowLe, compareRows, fieldVal, valString]
      exact boolStrAsc_total _ _
    | desc =>
      simp only [rowLe, compareRows, fieldVal, valString]
      exact boolStrDesc_total _ _

theorem rowLe_trans (cfg : SortConfig) (a b c : Row) :
    rowLe cfg a b = true → rowLe cfg b c = true → rowLe cfg a c = true := by
  rcases cfg with ⟨key, dir⟩
  cases key with
  | handle =>
    cases dir with
    | asc =>
      simp only [rowLe, compareRows, fieldVal, valString]
      exact boolStrAsc_trans _ _ _
    | desc =>
      simp only [rowLe, compareRows, fieldVal, valString]
      exact boolStrDesc_trans _ _ _
  | name =>
    cases dir with
    | asc =>
      simp only [rowLe, compareRows, fieldVal, valString]
      exact boolStrAsc_trans _ _ _
    | desc =>
      simp only [rowLe, compareRows, fieldVal, valString]
      exact boolStrDesc_trans _ _ _
  | followers =>
    cases dir with
    | asc =>
      simp only [rowLe, compareRows, fieldVal, valString]
      exact boolNum_trans _ _ _
    | desc =>
      simp only [rowLe, compareRows, fieldVal, valString]
      exact boolNum_trans_rev _ _ _
  | averageViews =>
    cases dir with
    | asc =>
      simp only [rowLe, compareRows, fieldVal, valString]
      exact boolNum_trans _ _ _
    | desc =>
      simp only [rowLe, compareRows, fieldVal, valString]
      exact boolNum_trans_rev _ _ _
  | category =>
    cases dir with
    | asc =>
      simp only [rowLe, compareRows, fieldVal, valString]
      exact boolStrAsc_trans _ _ _
    | desc =>
      simp only [rowLe, compareRows, fieldVal, valString]
      exact boolStrDesc_trans _ _ _
  | engagementRate =>
    cases dir with
    | asc =>
      simp only [rowLe, compareRows, fieldVal, valString]
      exact boolNum_trans _ _ _
    | desc =>
      simp only [rowLe, compareRows, fieldVal, valString]
      exact boolNum_trans_rev _ _ _
  | location =>
    cases dir with
    | asc =>
      simp only [rowLe, compareRows, fieldVal, valString]
      exact boolStrAsc_trans _ _ _
    | desc =>
      simp only [rowLe, compareRows, fieldVal, valString]
      exact boolStrDesc_trans _ _ _

theorem rowLe_eq_specLe (cfg : SortConfig) (a b : Row) :
    rowLe cfg a b = specLe cfg a b := by
  rcases cfg with ⟨key, dir⟩
  cases key with
  | handle =>
    cases dir with
    | asc =>
      simp only [rowLe, specLe, compareRows, fieldVal, valString]
      exact decide_ascStrPattern _ _
    | desc =>
      simp only [rowLe, specLe, compareRows, fieldVal, valString]
      exact decide_descStrPattern _ _
  | name =>
    cases dir with
    | asc =>
      simp only [rowLe, specLe, compareRows, fieldVal, valString]
      exact decide_ascStrPattern _ _
    | desc =>
      simp only [rowLe, specLe, compareRows, fieldVal, valString]
      exact decide_descStrPattern _ _
  | followers =>
    cases dir with
    | asc =>
      simp only [rowLe, specLe, compareRows, fieldVal, valString]
      exact decide_sub_nonpos _ _
    | desc =>
      simp only [rowLe, specLe, compareRows, fieldVal, valString]
      exact decide_sub_nonpos _ _
  | averageViews =>
    cases dir with
    | asc =>
      simp only [rowLe, specLe, compareRows, fieldVal, valString]
      exact decide_sub_nonpos _ _
    | desc =>
      simp only [rowLe, specLe, compareRows, fieldVal, valString]
      exact decide_sub_nonpos _ _
  | category =>
    cases dir with
    | asc =>
      simp only [rowLe, specLe, compareRows, fieldVal, valString]
      exact decide_ascStrPattern _ _
    | desc =>
      simp only [rowLe, specLe, compareRows, fieldVal, valString]
      exact decide_descStrPattern _ _
  | engagementRate =>
    cases dir with
    | asc =>
      simp only [rowLe, specLe, compareRows, fieldVal, valString]
      exact decide_sub_nonpos _ _
    | desc =>
      simp only [rowLe, specLe, compareRows, fieldVal, valString]
      exact decide_sub_nonpos _ _
  | location =>
    cases dir with
    | asc =>
      simp only [rowLe, specLe, compareRows, fieldVal, valString]
      exact decide_ascStrPattern _ _
    | desc =>
      simp only [rowLe, specLe, compareRows, fieldVal, valString]
      exact decide_descStrPattern _ _

theorem rowLe_of_compare_eq_zero (cfg : SortConfig) (a b : Row)
    (h : compareRows cfg a b = 0) :
    rowLe cfg a b = true ∧ rowLe cfg b a = true := by
  rcases cfg with ⟨key, dir⟩
  cases key with
  | handle =>
    cases dir with
    | asc =>
      simp only [compareRows, fieldVal, valString] at h
      simp only [rowLe, compareRows, fieldVal, valString]
      exact boolStrAsc_zero _ _ h
    | desc =>
      simp only [compareRows, fieldVal, valString] at h
      simp only [rowLe, compareRows, fieldVal, valString]
      exact boolStrDesc_zero _ _ h
  | name =>
    cases dir with
    | asc =>
      simp only [compareRows, fieldVal, valString] at h
      simp only [rowLe, compareRows, fieldVal, valString]
      exact boolStrAsc_zero _ _ h
    | desc =>
      simp only [compareRows, fieldVal, valString] at h
      simp only [rowLe, compareRows, fieldVal, valString]
      exact boolStrDesc_zero _ _ h
  | followers =>
    cases dir with
    | asc =>
      simp only [compareRows, fieldVal, valString] at h
      simp only [rowLe, compareRows, fieldVal, valString]
      exact boolNum_zero _ _ h
    | desc =>
      simp only [compareRows, fieldVal, valString] at h
      simp only [rowLe, compareRows, fieldVal, valString]
      exact boolNum_zero _ _ h
  | averageViews =>
    cases dir with
    | asc =>
      simp only [compareRows, fieldVal, valString] at h
      simp only [rowLe, compareRows, fieldVal, valString]
      exact boolNum_zero _ _ h
    | desc =>
      simp only [compareRows, fieldVal, valString] at h
      simp only [rowLe, compareRows, fieldVal, valString]
      exact boolNum_zero _ _ h
  | category =>
    cases dir with
    | asc =>
      simp only [compareRows, fieldVal, valString] at h
      simp only [rowLe, compareRows, fieldVal, valString]
      exact boolStrAsc_zero _ _ h
    | desc =>
      simp only [compareRows, fieldVal, valString] at h
      simp only [rowLe, compareRows, fieldVal, valString]
      exact boolStrDesc_zero _ _ h
  | engagementRate =>
    cases dir with
    | asc =>
      simp only [compareRows, fieldVal, valString] at h
      simp only [rowLe, compareRows, fieldVal, valString]
      exact boolNum_zero _ _ h
    | desc =>
      simp only [compareRows, fieldVal, valString] at h
      simp only [rowLe, compareRows, fieldVal, valString]
      exact boolNum_zero _ _ h
  | location =>
    cases dir with
    | asc =>
      simp only [compareRows, fieldVal, valString] at h
      simp only [rowLe, compareRows, fieldVal, valString]
      exact boolStrAsc_zero _ _ h
    | desc =>
      simp only [compareRows, fieldVal, valString] at h
      simp only [rowLe, compareRows, fieldVal, valString]
      exact boolStrDesc_zero _ _ h

/-- Claim C5: `getSortedResults` equals the stable sort of the stored
list under the comparator the spec words (numeric when both values are
numbers, otherwise case-insensitive lexicographic on string forms); it is
a permutation of the stored results, sorted under that comparator, and
rows comparing equal keep their original relative order (tied pairs stay
sublists). -/
theorem claim5_sorted_results (st : ClientState) (cfg : SortConfig)
    (hc : st.sortConfig = some cfg) :
    getSortedResults st = sortStable (specLe cfg) st.results ∧
    (getSortedResults st).Perm st.results ∧
    (getSortedResults st).Pairwise (fun a b => specLe cfg a b = true) ∧
    (∀ a b : Row, compareRows cfg a b = 0 → List.Sublist [a, b] st.results →
      List.Sublist [a, b] (getSortedResults st)) := by
  have hle : rowLe cfg = specLe cfg := by
    funext a b
    exact rowLe_eq_specLe cfg a b
  have hg : getSortedResults st = sortStable (rowLe cfg) st.results := by
    simp only [getSortedResults, hc]
  refine ⟨?_, ?_, ?_, ?_⟩
  · rw [hg, hle]
  · rw [hg]
    exact sortStable_perm _ _
  · rw [hg, hle]
    exact sortStable_pairwise
      (by rw [← hle]; exact rowLe_trans cfg)
      (by rw [← hle]; exact rowLe_total cfg) _
  · intro a b hz hsub
    rw [hg]
    exact sortStable_stable_pair (rowLe_trans cfg) (rowLe_total cfg)
      (rowLe_of_compare_eq_zero cfg a b hz).1 hsub

/-- Witness for C5: the case-insensitive comparator puts `"Zeta"` after
`"alpha"` ascending, and the theorem instantiates at that state. -/
theorem claim5_sorted_results_witness :
    sortStable (specLe { key := SortKey.handle, direction := SortDir.asc })
        [wRowZeta, wRowAlpha] = [wRowAlpha, wRowZeta] ∧
    (getSortedResults wStHandleSort =
        sortStable (specLe { key := SortKey.handle, direction := SortDir.asc })
          wStHandleSort.results ∧
      (getSortedResults wStHandleSort).Perm wStHandleSort.results ∧
      (getSortedResults wStHandleSort).Pairwise
        (fun a b => specLe { key := SortKey.handle, direction := SortDir.asc } a b = true) ∧
      (∀ a b : Row,
        compareRows { key := SortKey.handle, direction := SortDir.asc } a b = 0 →
        List.Sublist [a, b] wStHandleSort.results →
        List.Sublist [a, b] (getSortedResults wStHandleSort))) :=
  ⟨by decide,
    claim5_sorted_results wStHandleSort
      { key := SortKey.handle, direction := SortDir.asc } rfl⟩

/-! Followers comparisons evaluate to natural-number comparisons. -/

theorem rowLe_followers_asc (a b : Row) :
    rowLe { key := SortKey.followers, direction := SortDir.asc } a b =
      decide (a.followers ≤ b.followers) := by
  simp only [rowLe, compareRows, fieldVal]
  rw [decide_sub_nonpos, decide_eq_decide]
  exact Nat.cast_le

theorem rowLe_followers_desc (a b : Row) :
    rowLe { key := SortKey.followers, direction := SortDir.desc } a b =
      decide (b.followers ≤ a.followers) := by
  simp only [rowLe, compareRows, fieldVal]
  rw [decide_sub_nonpos, decide_eq_decide]
  exact Nat.cast_le

theorem rowLe_desc_swap (a b : Row) :
    rowLe { key := SortKey.followers, direction := SortDir.desc } b a =
      rowLe { key := SortKey.followers, direction := SortDir.asc } a b := rfl

theorem followers_eq_of_rowLe_both {x y : Row}
    (h1 : rowLe { key := SortKey.followers, direction := SortDir.desc } x y = true)
    (h2 : rowLe { key := SortKey.followers, direction := SortDir.desc } y x = true) :
    x.followers = y.followers := by
  simp only [rowLe, compareRows, fieldVal, decide_eq_true_eq] at h1 h2
  have hq : (x.followers : ℚ) = y.followers := by linarith
  exact_mod_cast hq

/-- Claim C6 (amended): for every 3-row result set whose follower counts
are pairwise distinct, sorting by followers descending yields exactly the
reverse of sorting ascending.  (With tied follower values stability
breaks the claimed reversal; see the counterexample.) -/
theorem claim6_desc_reverses_asc (hs : List String) (ld : Bool) (r1 r2 r3 : Row)
    (h12 : r1.followers ≠ r2.followers) (h13 : r1.followers ≠ r3.followers)
    (h23 : r2.followers ≠ r3.followers) :
    getSortedResults
        { handles := hs, results := [r1, r2, r3], loading := ld,
          sortConfig := some { key := SortKey.followers, direction := SortDir.desc } } =
      (getSortedResults
        { handles := hs, results := [r1, r2, r3], loading := ld,
          sortConfig := some { key := SortKey.followers, direction := SortDir.asc } }).reverse := by
  simp only [getSortedResults]
  have hpermD := sortStable_perm
    (rowLe { key := SortKey.followers, direction := SortDir.desc }) [r1, r2, r3]
  have hpermA := sortStable_perm
    (rowLe { key := SortKey.followers, direction := SortDir.asc }) [r1, r2, r3]
  have hperm : (sortStable (rowLe { key := SortKey.followers, direction := SortDir.desc })
      [r1, r2, r3]).Perm
      ((sortStable (rowLe { key := SortKey.followers, direction := SortDir.asc })
        [r1, r2, r3]).reverse) :=
    hpermD.trans (hpermA.symm.trans (List.reverse_perm _).symm)
  have hp1 := sortStable_pairwise
    (rowLe_trans { key := SortKey.followers, direction := SortDir.desc })
    (rowLe_total { key := SortKey.followers, direction := SortDir.desc }) [r1, r2, r3]
  have hpA := sortStable_pairwise
    (rowLe_trans { key := SortKey.followers, direction := SortDir.asc })
    (rowLe_total { key := SortKey.followers, direction := SortDir.asc }) [r1, r2, r3]
  have hp2 : ((sortStable (rowLe { key := SortKey.followers, direction := SortDir.asc })
      [r1, r2, r3]).reverse).Pairwise
      (fun a b => rowLe { key := SortKey.followers, direction := SortDir.desc } a b = true) := by
    rw [List.pairwise_reverse]
    exact hpA.imp (fun h => by rw [rowLe_desc_swap]; exact h)
  refine @eq_of_perm_of_pairwise Row
    (fun a b => rowLe { key := SortKey.followers, direction := SortDir.desc } a b = true)
    _ _ hperm hp1 hp2 ?_
  intro x hx y hy hxy hyx
  have hfeq := followers_eq_of_rowLe_both hxy hyx
  have hx' : x ∈ [r1, r2, r3] := hpermD.mem_iff.mp hx
  have hy' : y ∈ [r1, r2, r3] := hpermD.mem_iff.mp hy
  simp only [List.mem_cons, List.not_mem_nil, or_false] at hx' hy'
  rcases hx' with rfl | rfl | rfl <;> rcases hy' with rfl | rfl | rfl
  · rfl
  · exact absurd hfeq h12
  · exact absurd hfeq h13
  · exact absurd hfeq.symm h12
  · rfl
  · exact absurd hfeq h23
  · exact absurd hfeq.symm h13
  · exact absurd hfeq.symm h23
  · rfl

/-- Counterexample for C6: with tied follower counts the stable sort
keeps tied rows in stored order both ways, so descending is NOT the
reverse of ascending on this 3-row set. -/
theorem claim6_counterexample :
    getSortedResults wStTieDesc ≠ (getSortedResults wStTieAsc).reverse := by
  have h1 : getSortedResults wStTieDesc = [wTieA, wTieB, wTieC] := by
    simp [getSortedResults, wStTieDesc, sortStable, sortStableAux, insertStable,
      rowLe_followers_desc, wTieA, wTieB, wTieC]
  have h2 : getSortedResults wStTieAsc = [wTieC, wTieA, wTieB] := by
    simp [getSortedResults, wStTieAsc, sortStable, sortStableAux, insertStable,
      rowLe_followers_asc, wTieA, wTieB, wTieC]
  rw [h1, h2]
  decide

theorem claim6_desc_reverses_asc_witness :
    getSortedResults
        { handles := [], results := [wRowSevenA, wRowSevenB, wRowSevenC],
          loading := false,
          sortConfig := some { key := SortKey.followers, direction := SortDir.desc } } =
      (getSortedResults
        { handles := [], results := [wRowSevenA, wRowSevenB, wRowSevenC],
          loading := false,
          sortConfig := some { key := SortKey.followers, direction := SortDir.asc } }).reverse :=
  claim6_desc_reverses_asc [] false wRowSevenA wRowSevenB wRowSevenC
    (by decide) (by decide) (by decide)

theorem claim10_export_ignores_sort_witness :
    (exportToCSV wUnparse "2026-10-11" wStExpSorted).content =
      (exportToCSV wUnparse "2026-10-11" wStExpNoSort).content ∧
    (exportToExcel wUnparse "2026-10-11" wStExpSorted).content =
      (exportToExcel wUnparse "2026-10-11" wStExpNoSort).content ∧
    (exportToCSV wUnparse "2026-10-11" wStExpSorted).content =
      wUnparse (wStExpSorted.results.map exportRecord) ∧
    (exportToExcel wUnparse "2026-10-11" wStExpSorted).content =
      wUnparse (wStExpSorted.results.map exportRecord) :=
  claim10_export_ignores_sort wUnparse "2026-10-11" wStExpSorted wStExpNoSort rfl
